import Mathlib

/-!
Verification of the record-aggregation engine of the dashboard repository.

The JavaScript sources embedded here are:
- src/utility-functions.js  (calculateStatistics, calculateParetoData)
- src/DataContextProvider.js, DataTransformer class (calculateRFTRate,
  groupRecordsByMonth, analyzeErrorTypes, transformOverviewData,
  transformInternalRFTData, transformExternalRFTData and its lag-correlation
  loop, the per-stage outlier block of transformInsightsData)
- src/ExcelProcessor.js (generateOverview, overall-RFT weighted sum)

Modelling conventions:
- JavaScript numbers are modelled as exact rationals; Math.sqrt is modelled
  as Real.sqrt, so values produced by a square root live in the reals.
- A field that may be absent (undefined) is an Option.
- JavaScript truthiness of a number is being nonzero; of a string, being
  nonempty; arrays are always truthy.
- Date parsing (the JS Date constructor plus getFullYear/getMonth key
  formatting) is kept abstract as a parameter parse : String -> Option String
  returning the YYYY-MM month key, none when the date string does not parse.
  Likewise dateDiff : String -> String -> Option Rat abstracts
  (new Date(b) - new Date(a)) / 86400000, none when either date is invalid.
- Object string keys (month keys, error-type names) are iterated in first
  insertion order, which matches JS objects for the non-integer-like keys
  produced here; association lists preserve that order.
- String.prototype.split, trim, and the default lexicographic sort are
  re-implemented over the underlying character lists because the built-in
  Lean String operations do not reduce in the kernel; on the ASCII data
  involved they agree with the UTF-16 code-unit semantics of JS.
-/

/-- JS Number.prototype.toFixed(1) followed by parseFloat: round to one
decimal, half away from zero for positive arguments (ECMA picks the larger
candidate on ties). -/
def jsToFixed1 (q : ℚ) : ℚ := (⌊q * 10 + 1/2⌋ : ℚ) / 10

/-- JS idiom x || 0 on a number: 0 (and NaN) map to 0, everything else is
kept; on exact rationals this is the identity but it is kept explicit to
mirror the source. -/
def jsOrZero (q : ℚ) : ℚ := if q = 0 then 0 else q

/-- JS idiom a || b on two optional numbers: the first operand is used when
it is truthy (present and nonzero), otherwise the second operand. -/
def jsOrOpt (a b : Option ℚ) : Option ℚ :=
  match a with
  | some x => if x = 0 then b else some x
  | none => b

/-- JS arr.slice(-n): the last n elements for n >= 1, but the whole array
when n = 0 because slice(-0) is slice(0). -/
def jsSliceLast (n : ℕ) (l : List α) : List α :=
  if n = 0 then l else l.drop (l.length - n)

/-- Split a character list at every occurrence of the separator, JS
String.prototype.split semantics: the empty string yields one empty piece. -/
def splitChars (sep : Char) : List Char → List (List Char)
  | [] => [[]]
  | c :: cs =>
    let r := splitChars sep cs
    if c = sep then [] :: r
    else
      match r with
      | [] => [[c]]
      | h :: t => (c :: h) :: t

/-- JS String.prototype.split with a one-character separator. -/
def jsSplit (sep : Char) (s : String) : List String :=
  (splitChars sep s.data).map fun cs => ⟨cs⟩

/-- JS String.prototype.trim: drop whitespace from both ends. -/
def jsTrim (s : String) : String :=
  ⟨((s.data.dropWhile Char.isWhitespace).reverse.dropWhile Char.isWhitespace).reverse⟩

/-- Truthiness of an optional string in JS: present and nonempty. -/
def strTruthy : Option String → Bool
  | some s => s.data ≠ []
  | none => false

/-- The default JS Array.prototype.sort() order on strings: lexicographic
comparison of the code units, modelled on the character lists. -/
def jsStrLe (a b : String) : Prop := a.data ≤ b.data

instance : DecidableRel jsStrLe := fun a b => inferInstanceAs (Decidable (a.data ≤ b.data))

instance : IsTotal String jsStrLe := ⟨fun a b => le_total a.data b.data⟩

instance : IsTrans String jsStrLe := ⟨fun _ _ _ h h' => le_trans h h'⟩

instance : IsAntisymm String jsStrLe :=
  ⟨fun a b h h' => by
    cases a; cases b
    exact congrArg String.mk (le_antisymm h h')⟩

/-- Mean of a list used all over the transformer:
values.length > 0 ? sum / length : 0. -/
def avgOr0 (l : List ℚ) : ℚ := if l = [] then 0 else l.sum / l.length

/-- The error-type collection of a record is stored inconsistently in the
data: either a single comma-joined string or an array of strings. -/
inductive ErrVal where
  | str (s : String)
  | arr (l : List String)
deriving DecidableEq, Repr

/-- Truthiness of the errorTypes field in JS: absent and the empty string are
falsy; an array (even an empty one) is truthy. -/
def errValTruthy : Option ErrVal → Bool
  | none => false
  | some (.str s) => s.data ≠ []
  | some (.arr _) => true

/-- One flat batch/lot record, with the field surface used by the
transformer; optional fields model possibly-undefined JS properties. -/
structure Record where
  batchId : String := ""
  source : Option String := none
  hasErrors : Bool := false
  errorCount : Option ℤ := none
  errorTypes : Option ErrVal := none
  assembly_start : Option String := none
  assembly_finish : Option String := none
  packaging_start : Option String := none
  packaging_finish : Option String := none
  cycleTime : Option ℚ := none
  total_cycle_time_days : Option ℚ := none
  assembly_cycle_time : Option ℚ := none
  pci_wip_review_cycle_time : Option ℚ := none
  nn_wip_review_cycle_time : Option ℚ := none
deriving DecidableEq, Repr

/-- DataTransformer.calculateRFTRate: percentage of records without the
error flag; 0 for empty input. -/
def calculateRFTRate (records : List Record) : ℚ :=
  if records = [] then 0
  else ((records.filter fun r => !r.hasErrors).length : ℚ) / (records.length : ℚ) * 100

/-- Result shape of calculateStatistics from utility-functions.js. The
source stores Math.sqrt(avgSquareDiff) as standardDeviation; the exact
intermediate avgSquareDiff is kept as the variance field of this core
structure and the square root is taken in the wrapper below. -/
structure StatsCore where
  min : ℚ
  max : ℚ
  mean : ℚ
  median : ℚ
  variance : ℚ
deriving DecidableEq, Repr

/-- calculateStatistics, everything except the final square root. The input
is a list of rationals, so the source's filter of non-numeric/NaN entries
keeps every element and the second emptiness check coincides with the
first. -/
def calculateStatisticsCore (data : List ℚ) : StatsCore :=
  if data = [] then ⟨0, 0, 0, 0, 0⟩
  else
    let sortedData := data.insertionSort (· ≤ ·)
    let min := sortedData.headI
    let max := sortedData.getLastI
    let sum := sortedData.sum
    let mean := sum / (sortedData.length : ℚ)
    let midpoint := sortedData.length / 2
    let median :=
      if sortedData.length % 2 = 0 then
        (sortedData.getD (midpoint - 1) 0 + sortedData.getD midpoint 0) / 2
      else sortedData.getD midpoint 0
    let squareDiffs := sortedData.map fun v => (v - mean) * (v - mean)
    let variance := squareDiffs.sum / (squareDiffs.length : ℚ)
    ⟨min, max, mean, median, variance⟩

/-- calculateStatistics from utility-functions.js, with
standardDeviation = Math.sqrt(avgSquareDiff) modelled as a real. -/
structure Stats where
  min : ℚ
  max : ℚ
  mean : ℚ
  median : ℚ
  standardDeviation : ℝ

/-- calculateStatistics from utility-functions.js. -/
noncomputable def calculateStatistics (data : List ℚ) : Stats :=
  let c := calculateStatisticsCore data
  ⟨c.min, c.max, c.mean, c.median, Real.sqrt (c.variance : ℝ)⟩

/-- Output entry of calculateParetoData. -/
structure ParetoEntry where
  name : String
  value : ℚ
  percentage : ℚ
  cumulative : ℚ
  cumulativePercentage : ℚ
deriving DecidableEq, Repr

/-- Descending-by-value order used by calculateParetoData's comparator
(a, b) => b.value - a.value; the sort below is stable like JS sort. -/
def valueGE (a b : String × ℚ) : Prop := b.2 ≤ a.2

instance : DecidableRel valueGE := fun a b => inferInstanceAs (Decidable (b.2 ≤ a.2))

instance : IsTotal (String × ℚ) valueGE := ⟨fun a b => le_total b.2 a.2⟩

instance : IsTrans (String × ℚ) valueGE := ⟨fun _ _ _ h h' => le_trans h' h⟩

/-- The running-cumulative pass of calculateParetoData over the sorted
items. -/
def paretoAux (total : ℚ) (cum : ℚ) : List (String × ℚ) → List ParetoEntry
  | [] => []
  | (n, v) :: rest =>
    let c := cum + v
    ⟨n, v, jsToFixed1 (v / total * 100), c, jsToFixed1 (c / total * 100)⟩ ::
      paretoAux total c rest

/-- calculateParetoData from utility-functions.js: sort descending by value,
annotate with percentage, running cumulative and cumulative percentage, each
percentage rounded to one decimal. -/
def calculateParetoData (data : List (String × ℚ)) : List ParetoEntry :=
  let sortedData := data.insertionSort valueGE
  let total := (sortedData.map (·.2)).sum
  paretoAux total 0 sortedData

/-- Append a record to the group of its month key, creating the group at the
end on first occurrence: models monthGroups[monthKey].push(record) on a JS
object iterated in insertion order. -/
def addToGroups (k : String) (r : Record) : List (String × List Record) → List (String × List Record)
  | [] => [(k, [r])]
  | (k', g) :: rest =>
    if k' = k then (k', g ++ [r]) :: rest
    else (k', g) :: addToGroups k r rest

/-- The month key of a record, as groupRecordsByMonth extracts it from the
assembly_start field: the field must be truthy and different from the "N/A"
placeholder, and the date must parse (parse abstracts the JS Date
constructor together with the YYYY-MM key formatting). -/
def monthKeyOf (parse : String → Option String) (r : Record) : Option String :=
  match r.assembly_start with
  | none => none
  | some s => if s.data = [] ∨ s = "N/A" then none else parse s

/-- DataTransformer.groupRecordsByMonth on the assembly_start date field
(every call site uses that field): filter records with a usable date, group
them by month key in first-occurrence order, sort the keys, and keep the
last monthCount keys via slice(-monthCount). -/
def groupRecordsByMonth (parse : String → Option String) (records : List Record)
    (monthCount : ℕ) : List (String × List Record) :=
  let monthGroups := records.foldl
    (fun groups r =>
      match monthKeyOf parse r with
      | some k => addToGroups k r groups
      | none => groups)
    []
  let sortedMonths := jsSliceLast monthCount ((monthGroups.map (·.1)).insertionSort jsStrLe)
  sortedMonths.map fun m => (m, ((monthGroups.lookup m).getD []))

/-- The flat token list contributed by one errorTypes value: a string is
split at commas and each token trimmed, an array is used as is. The falsy
(empty) tokens are skipped by the counting loop and are filtered here. -/
def errorTokens : Option ErrVal → List String
  | none => []
  | some (.str s) => ((jsSplit ',' s).map jsTrim).filter fun t => t.data ≠ []
  | some (.arr l) => l.filter fun t => t.data ≠ []

/-- Bump the count of one error type, creating the entry at the end on first
occurrence: models errorCounts[type]++ on a JS object in insertion order. -/
def addCount (k : String) : List (String × ℕ) → List (String × ℕ)
  | [] => [(k, 1)]
  | (k', c) :: rest =>
    if k' = k then (k', c + 1) :: rest
    else (k', c) :: addCount k rest

/-- Output entry of analyzeErrorTypes. -/
structure ErrorTypeEntry where
  name : String
  count : ℕ
  percentage : ℚ
deriving DecidableEq, Repr

/-- Descending-by-count order of the comparator (a, b) => b.count - a.count;
the sort below is stable like JS sort. -/
def countGE (a b : String × ℕ) : Prop := b.2 ≤ a.2

instance : DecidableRel countGE := fun a b => inferInstanceAs (Decidable (b.2 ≤ a.2))

instance : IsTotal (String × ℕ) countGE := ⟨fun a b => le_total b.2 a.2⟩

instance : IsTrans (String × ℕ) countGE := ⟨fun _ _ _ h h' => le_trans h' h⟩

/-- DataTransformer.analyzeErrorTypes: count error types over the records
that carry errors, sort descending by count, attach each type's percentage
of the total occurrences, truncate to the top topCount entries. -/
def analyzeErrorTypes (records : List Record) (topCount : ℕ) : List ErrorTypeEntry :=
  if records = [] then []
  else
    let recordsWithErrors := records.filter fun r => r.hasErrors && errValTruthy r.errorTypes
    let errorCounts := recordsWithErrors.foldl
      (fun counts r => (errorTokens r.errorTypes).foldl (fun cs t => addCount t cs) counts)
      []
    let errorArray := errorCounts.insertionSort countGE
    let totalErrors := (errorArray.map (·.2)).sum
    (errorArray.map fun e => ⟨e.1, e.2, (e.2 : ℚ) / (totalErrors : ℚ) * 100⟩).take topCount

/-- Monthly entry of the internal RFT section. -/
structure MonthlyRFTEntry where
  month : String
  rftRate : ℚ
  recordCount : ℕ
deriving DecidableEq, Repr

/-- Assembly-vs-packaging comparison entry of the internal RFT section. -/
structure StageComparison where
  recordCount : ℕ
  rftRate : ℚ
  avgCycleTime : ℚ
deriving DecidableEq, Repr

/-- A problematic lot as listed by the internal RFT section. -/
structure ProblematicLot where
  batchId : String
  errorCount : ℤ
  date : Option String
  errorTypes : Option ErrVal
deriving DecidableEq, Repr

/-- Descending order on error counts used for problematic lots. -/
def lotErrGE (a b : ProblematicLot) : Prop := b.errorCount ≤ a.errorCount

instance : DecidableRel lotErrGE := fun a b => inferInstanceAs (Decidable (b.errorCount ≤ a.errorCount))

instance : IsTotal ProblematicLot lotErrGE := ⟨fun a b => le_total b.errorCount a.errorCount⟩

instance : IsTrans ProblematicLot lotErrGE := ⟨fun _ _ _ h h' => le_trans h' h⟩

/-- The internal RFT tab section as built by transformInternalRFTData. -/
structure InternalRFTSection where
  recordCount : ℕ
  internalRFT : ℚ
  monthlyRFT : List MonthlyRFTEntry
  errorPareto : List ParetoEntry
  assemblyComparison : StageComparison
  packagingComparison : StageComparison
  problematicLots : List ProblematicLot
deriving DecidableEq, Repr

/-- The value kept by .map(r => field).filter(val => val && !isNaN(val)):
the field when present and nonzero. -/
def truthyVal (v : Option ℚ) : Option ℚ :=
  v.bind fun x => if x = 0 then none else some x

/-- The cycle-time value of a record as read throughout the transformer:
r.cycleTime || r.total_cycle_time_days, then the truthiness filter. -/
def cycleTimeVal (r : Record) : Option ℚ :=
  truthyVal (jsOrOpt r.cycleTime r.total_cycle_time_days)

/-- DataTransformer.transformInternalRFTData. Returns none on the early
exits (no records at all, or no internal records), in which case the source
leaves the placeholder empty object untouched, so the section has no
recordCount field at all. -/
def transformInternalRFTData (parse : String → Option String)
    (dateDiff : String → String → Option ℚ) (records : List Record) :
    Option InternalRFTSection :=
  if records = [] then none
  else
    let internalRecords := records.filter fun r =>
      r.source = some "Process" || r.source = some "Internal"
    if internalRecords = [] then none
    else
      let monthlyGroups := groupRecordsByMonth parse internalRecords 12
      let assemblyRecords := internalRecords.filter fun r =>
        strTruthy r.assembly_start && strTruthy r.assembly_finish
      let packagingRecords := internalRecords.filter fun r =>
        strTruthy r.packaging_start && strTruthy r.packaging_finish
      let assemblyCycleTimes := assemblyRecords.filterMap fun r => truthyVal r.assembly_cycle_time
      let packagingCycleTimes := packagingRecords.filterMap fun r =>
        match r.packaging_start, r.packaging_finish with
        | some s, some f => dateDiff s f
        | _, _ => none
      some
        { recordCount := internalRecords.length
          internalRFT := calculateRFTRate internalRecords
          monthlyRFT := monthlyGroups.map fun mg =>
            ⟨mg.1, calculateRFTRate mg.2, mg.2.length⟩
          errorPareto := calculateParetoData
            ((analyzeErrorTypes (internalRecords.filter (·.hasErrors)) 10).map fun i =>
              (i.name, (i.count : ℚ)))
          assemblyComparison :=
            ⟨assemblyRecords.length, calculateRFTRate assemblyRecords, avgOr0 assemblyCycleTimes⟩
          packagingComparison :=
            ⟨packagingRecords.length, calculateRFTRate packagingRecords, avgOr0 packagingCycleTimes⟩
          problematicLots :=
            (((internalRecords.filter fun r => r.hasErrors && (r.errorCount.getD 0) > 1).map
              fun r => ProblematicLot.mk r.batchId (r.errorCount.getD 0) r.assembly_start
                r.errorTypes).insertionSort lotErrGE).take 5 }

/-- One month entry of the internal-vs-external comparison built by
transformExternalRFTData. -/
structure MonthlyComparisonEntry where
  month : String
  externalRFT : ℚ
  internalRFT : ℚ
  externalCount : ℕ
  internalCount : ℕ
deriving DecidableEq, Repr

/-- First-occurrence deduplication: Array.from(new Set(list)). -/
def jsSetDedup (l : List String) : List String :=
  l.foldl (fun acc s => if s ∈ acc then acc else acc ++ [s]) []

/-- The paired series built for one candidate lag of the lag-correlation
loop: for every index i >= lag, pair the internal RFT of month i - lag with
the external RFT of month i, keeping the pair only when both rates are
strictly positive. -/
def pairsAtLag (mc : List MonthlyComparisonEntry) (lag : ℕ) : List (ℚ × ℚ) :=
  mc.enum.foldl
    (fun (pairs : List (ℚ × ℚ)) (p : ℕ × MonthlyComparisonEntry) =>
      if lag ≤ p.1 then
        match mc[p.1 - lag]? with
        | some internalMonth =>
          if 0 < p.2.externalRFT ∧ 0 < internalMonth.internalRFT then
            pairs ++ [(internalMonth.internalRFT, p.2.externalRFT)]
          else pairs
        | none => pairs
      else pairs)
    []

/-- Pearson correlation of a list of (internal, external) pairs, exactly as
the loop body computes it: 0 when the denominator Math.sqrt(dI * dE) is 0. -/
noncomputable def pearsonOfPairs (pairs : List (ℚ × ℚ)) : ℝ :=
  let internalValues := pairs.map (·.1)
  let externalValues := pairs.map (·.2)
  let internalMean := internalValues.sum / (pairs.length : ℚ)
  let externalMean := externalValues.sum / (pairs.length : ℚ)
  let numerator := (pairs.map fun p =>
    (p.1 - internalMean) * (p.2 - externalMean)).sum
  let denomInternalSum := (pairs.map fun p =>
    (p.1 - internalMean) * (p.1 - internalMean)).sum
  let denomExternalSum := (pairs.map fun p =>
    (p.2 - externalMean) * (p.2 - externalMean)).sum
  let denominator := Real.sqrt ((denomInternalSum * denomExternalSum : ℚ) : ℝ)
  if denominator = 0 then 0 else ((numerator : ℚ) : ℝ) / denominator

/-- One iteration of the lag loop: when the lag has at least 3 pairs and the
absolute correlation strictly exceeds the best so far, the best correlation
and best lag are overwritten. -/
noncomputable def bestLagStep (mc : List MonthlyComparisonEntry) (state : ℝ × ℕ) (lag : ℕ) :
    ℝ × ℕ :=
  let pairs := pairsAtLag mc lag
  if 3 ≤ pairs.length then
    let correlation := pearsonOfPairs pairs
    if |correlation| > |state.1| then (correlation, lag) else state
  else state

/-- The lag-correlation selection of transformExternalRFTData: lags 0..3,
starting from bestCorrelation = 0, bestLag = 0. -/
noncomputable def bestLagCorrelation (mc : List MonthlyComparisonEntry) : ℝ × ℕ :=
  (List.range 4).foldl (bestLagStep mc) (0, 0)

/-- The impact analysis of the external RFT section (the observation strings
derived from these two numbers are not modelled). -/
structure ImpactAnalysis where
  correlation : ℝ
  lagTime : ℕ

/-- The external RFT tab section as built by transformExternalRFTData. -/
structure ExternalRFTSection where
  recordCount : ℕ
  externalRFT : ℚ
  internalRFT : ℚ
  monthlyComparison : List MonthlyComparisonEntry
  topIssues : List ErrorTypeEntry
  impactAnalysis : ImpactAnalysis

/-- The monthly comparison rows of transformExternalRFTData: the sorted
union of the external and internal month keys, each month carrying the RFT
rate and record count of both subsets (empty list when a side misses the
month). -/
def monthlyComparisonOf (parse : String → Option String) (records : List Record) :
    List MonthlyComparisonEntry :=
  let externalRecords := records.filter fun r => r.source = some "External"
  let internalRecords := records.filter fun r =>
    r.source = some "Process" || r.source = some "Internal"
  let externalMonthlyGroups := groupRecordsByMonth parse externalRecords 12
  let internalMonthlyGroups := groupRecordsByMonth parse internalRecords 12
  let allMonths := (jsSetDedup
    (externalMonthlyGroups.map (·.1) ++ internalMonthlyGroups.map (·.1))).insertionSort jsStrLe
  allMonths.map fun month =>
    let externalMonth := (externalMonthlyGroups.lookup month).getD []
    let internalMonth := (internalMonthlyGroups.lookup month).getD []
    ⟨month, calculateRFTRate externalMonth, calculateRFTRate internalMonth,
      externalMonth.length, internalMonth.length⟩

/-- DataTransformer.transformExternalRFTData. Returns none on the early
exits (no records at all, or no external records), in which case the source
leaves the placeholder empty object untouched, so the section has no
recordCount field at all. -/
noncomputable def transformExternalRFTData (parse : String → Option String)
    (records : List Record) : Option ExternalRFTSection :=
  if records = [] then none
  else
    let externalRecords := records.filter fun r => r.source = some "External"
    if externalRecords = [] then none
    else
      let internalRecords := records.filter fun r =>
        r.source = some "Process" || r.source = some "Internal"
      let monthlyComparison := monthlyComparisonOf parse records
      let best := bestLagCorrelation monthlyComparison
      some
        { recordCount := externalRecords.length
          externalRFT := calculateRFTRate externalRecords
          internalRFT := calculateRFTRate internalRecords
          monthlyComparison := monthlyComparison
          topIssues := analyzeErrorTypes (externalRecords.filter (·.hasErrors)) 5
          impactAnalysis := ⟨best.1, best.2⟩ }

/-- One monthly metric row of the overview section. -/
structure MonthlyMetric where
  month : String
  displayMonth : String
  rftRate : ℚ
  avgCycleTime : ℚ
  recordCount : ℕ
deriving DecidableEq, Repr

/-- The recent-6-vs-previous-6-months improvement summary of the overview
section. -/
structure ImprovementSummary where
  recentRFT : ℚ
  previousRFT : ℚ
  rftChange : ℚ
  recentAvgCycleTime : ℚ
  previousAvgCycleTime : ℚ
  cycleTimeChange : ℚ
deriving DecidableEq, Repr

/-- The overview tab section as built by transformOverviewData; the
rftPerformance pair holds the Pass and Fail record counts. -/
structure OverviewSection where
  totalRecords : ℕ
  overallRFTRate : ℚ
  avgCycleTime : ℚ
  monthlyMetrics : List MonthlyMetric
  topIssues : List ErrorTypeEntry
  rftPerformancePass : ℕ
  rftPerformanceFail : ℕ
  improvementSummary : Option ImprovementSummary
deriving DecidableEq, Repr

/-- The cycle-time values of a record list, as collected by
transformOverviewData: r.cycleTime || r.total_cycle_time_days, kept when
truthy and numeric. -/
def cycleTimeValues (records : List Record) : List ℚ :=
  records.filterMap cycleTimeVal

/-- DataTransformer.transformOverviewData. Returns none when there are no
records (the source leaves the overview placeholder object untouched). -/
def transformOverviewData (parse : String → Option String) (records : List Record) :
    Option OverviewSection :=
  if records = [] then none
  else
    let monthlyGroups := groupRecordsByMonth parse records 12
    let sortedMonthKeys := (monthlyGroups.map (·.1)).insertionSort jsStrLe
    let improvementSummary :=
      if 12 ≤ sortedMonthKeys.length then
        let recentMonths := jsSliceLast 6 sortedMonthKeys
        let previousMonths := (sortedMonthKeys.drop (sortedMonthKeys.length - 12)).take 6
        let recentRecords := recentMonths.flatMap fun m => (monthlyGroups.lookup m).getD []
        let previousRecords := previousMonths.flatMap fun m => (monthlyGroups.lookup m).getD []
        let recentRFT := calculateRFTRate recentRecords
        let previousRFT := calculateRFTRate previousRecords
        let recentAvgCycleTime := avgOr0 (cycleTimeValues recentRecords)
        let previousAvgCycleTime := avgOr0 (cycleTimeValues previousRecords)
        some
          { recentRFT := recentRFT
            previousRFT := previousRFT
            rftChange :=
              if 0 < previousRFT then (recentRFT - previousRFT) / previousRFT * 100 else 0
            recentAvgCycleTime := recentAvgCycleTime
            previousAvgCycleTime := previousAvgCycleTime
            cycleTimeChange :=
              if 0 < previousAvgCycleTime then
                (recentAvgCycleTime - previousAvgCycleTime) / previousAvgCycleTime * 100
              else 0 }
      else none
    some
      { totalRecords := records.length
        overallRFTRate := calculateRFTRate records
        avgCycleTime := avgOr0 (cycleTimeValues records)
        monthlyMetrics := monthlyGroups.map fun mg =>
          ⟨mg.1, ((jsSplit '-' mg.1).getD 1 ""), calculateRFTRate mg.2,
            avgOr0 (cycleTimeValues mg.2), mg.2.length⟩
        topIssues := analyzeErrorTypes records 3
        rftPerformancePass := (records.filter fun r => !r.hasErrors).length
        rftPerformanceFail := (records.filter fun r => r.hasErrors).length
        improvementSummary := improvementSummary }

/-- One flagged outlier of the per-stage bottleneck analysis in
transformInsightsData: the record, its duration, and the threshold that
flagged it. -/
structure OutlierEntry where
  batchId : String
  stage : String
  duration : ℚ
  threshold : ℝ

/-- The (batchId, duration) list collected for a stage that reads a named
duration field: the field must be truthy (present and nonzero) and
numeric. -/
def stageDurationsField (records : List Record) (field : Record → Option ℚ) :
    List (String × ℚ) :=
  records.filterMap fun r =>
    (truthyVal (field r)).map fun d => (r.batchId, d)

/-- The (batchId, duration) list collected for the Packaging stage, whose
duration is computed from the packaging start and finish dates; here a zero
duration is kept because the computed value is only checked against null and
NaN. -/
def stageDurationsPackaging (dateDiff : String → String → Option ℚ)
    (records : List Record) : List (String × ℚ) :=
  records.filterMap fun r =>
    match r.packaging_start, r.packaging_finish with
    | some s, some f => (dateDiff s f).map fun d => (r.batchId, d)
    | _, _ => none

/-- The per-stage outlier block of transformInsightsData: with
stats = calculateStatistics(durations), the threshold is
stats.mean + 2 * stats.standardDeviation and every duration greater than or
equal to the threshold is flagged, annotated with the threshold used. -/
noncomputable def stageOutliers (stageName : String) (durations : List (String × ℚ)) :
    List OutlierEntry :=
  let stats := calculateStatistics (durations.map (·.2))
  let outlierThreshold : ℝ := (stats.mean : ℝ) + 2 * stats.standardDeviation
  (durations.filter fun d => decide (((d.2 : ℚ) : ℝ) ≥ outlierThreshold)).map fun d =>
    ⟨d.1, stageName, d.2, outlierThreshold⟩

/-- ExcelProcessor.generateOverview, the blended overall RFT before the
final rounding: internal summary RFT and commercial completion rate are
taken with the || 0 guard, the external side enters as
100 - resolutionRate (again || 0 guarded), and the weights are 0.4 / 0.3 /
0.3 with the external term re-complemented to 100 - externalRFT. -/
def generateOverviewOverallRFT (rftRate resolutionRate completionRate : ℚ) : ℚ :=
  let internalRFT := jsOrZero rftRate
  let externalRFT := jsOrZero (100 - resolutionRate)
  let commercialRFT := jsOrZero completionRate
  internalRFT * (0.4 : ℚ) + (100 - externalRFT) * (0.3 : ℚ) + commercialRFT * (0.3 : ℚ)

/-- The overallRFTRate stored in the overview stats: the weighted sum left
by toFixed(1). -/
def generateOverviewOverallRFTRate (rftRate resolutionRate completionRate : ℚ) : ℚ :=
  jsToFixed1 (generateOverviewOverallRFT rftRate resolutionRate completionRate)

/-- C3: with internal RFT rate 90, external resolution rate 80 and
commercial completion rate 95, the assembled overview's overall RFT is the
exact fixed-weight sum 0.4 * 90 + 0.3 * 80 + 0.3 * 95 = 88.5; the weighted
sum reduces to these fixed weights for every input, and the stored one
decimal rounding leaves 88.5 unchanged. -/
theorem c3_overall_rft_weighted_sum :
    (∀ i r c : ℚ, generateOverviewOverallRFT i r c =
      (0.4 : ℚ) * i + (0.3 : ℚ) * r + (0.3 : ℚ) * c) ∧
    generateOverviewOverallRFT 90 80 95 = (0.4 : ℚ) * 90 + (0.3 : ℚ) * 80 + (0.3 : ℚ) * 95 ∧
    generateOverviewOverallRFT 90 80 95 = 88.5 ∧
    generateOverviewOverallRFTRate 90 80 95 = 88.5 := by
  refine ⟨fun i r c => ?_, by norm_num [generateOverviewOverallRFT, jsOrZero],
    by norm_num [generateOverviewOverallRFT, jsOrZero],
    by norm_num [generateOverviewOverallRFTRate, generateOverviewOverallRFT, jsOrZero,
      jsToFixed1]⟩
  unfold generateOverviewOverallRFT jsOrZero
  split_ifs <;> ring_nf <;> linarith

/-- C6: the RFT rate of a record list is passing / total * 100 with passing
being the records without the error flag, it is 0 on the empty list, always
lies in the interval from 0 to 100, and is exactly 100 on a nonempty
all-passing list. -/
theorem c6_rft_rate (records : List Record) :
    calculateRFTRate [] = 0 ∧
    (records ≠ [] → calculateRFTRate records =
      ((records.filter fun r => !r.hasErrors).length : ℚ) / (records.length : ℚ) * 100) ∧
    0 ≤ calculateRFTRate records ∧ calculateRFTRate records ≤ 100 ∧
    (records ≠ [] → (∀ r ∈ records, r.hasErrors = false) → calculateRFTRate records = 100) := by
  refine ⟨by simp [calculateRFTRate], fun h => by simp [calculateRFTRate, h], ?_, ?_, ?_⟩
  · by_cases h : records = []
    · simp [calculateRFTRate, h]
    · have hlen : (0 : ℚ) < (records.length : ℚ) := by
        exact_mod_cast Nat.pos_of_ne_zero (fun hc => h (List.length_eq_zero.mp hc))
      simp only [calculateRFTRate, if_neg h]
      positivity
  · by_cases h : records = []
    · simp [calculateRFTRate, h]
    · have hlen : (0 : ℚ) < (records.length : ℚ) := by
        exact_mod_cast Nat.pos_of_ne_zero (fun hc => h (List.length_eq_zero.mp hc))
      simp only [calculateRFTRate, if_neg h]
      have hle : ((records.filter fun r => !r.hasErrors).length : ℚ) ≤ (records.length : ℚ) := by
        exact_mod_cast List.length_filter_le _ records
      have h1 : ((records.filter fun r => !r.hasErrors).length : ℚ) / (records.length : ℚ) ≤ 1 :=
        (div_le_one hlen).mpr hle
      linarith
  · intro h hall
    have hfilter : records.filter (fun r => !r.hasErrors) = records :=
      List.filter_eq_self.mpr fun r hr => by simp [hall r hr]
    have hlen : ((records.length : ℚ)) ≠ 0 := by
      exact_mod_cast fun hc => h (List.length_eq_zero.mp (by exact_mod_cast hc))
    simp [calculateRFTRate, h, hfilter, div_self hlen]

/-- Witness for C6 at a concrete all-passing singleton list. -/
theorem c6_rft_rate_witness : calculateRFTRate [({} : Record)] = 100 :=
  (c6_rft_rate [{}]).2.2.2.2 (by simp) (fun r hr => by
    simp only [List.mem_singleton] at hr
    subst hr
    rfl)

/-- C4: with t the threshold mean + 2 * standardDeviation of the stage's
durations, a duration exactly equal to t is flagged (the boundary is
inclusive), a duration strictly below t is never flagged, and every flagged
outlier carries the threshold t, its stage name, a duration meeting the
inclusive bound, and comes from the input durations. -/
theorem c4_stage_outliers (stage : String) (durations : List (String × ℚ)) (t : ℝ)
    (ht : t = ((calculateStatistics (durations.map (·.2))).mean : ℝ) +
      2 * (calculateStatistics (durations.map (·.2))).standardDeviation) :
    (∀ b d, (b, d) ∈ durations → ((d : ℚ) : ℝ) = t →
      (⟨b, stage, d, t⟩ : OutlierEntry) ∈ stageOutliers stage durations) ∧
    (∀ b d, (b, d) ∈ durations → ((d : ℚ) : ℝ) < t →
      (⟨b, stage, d, t⟩ : OutlierEntry) ∉ stageOutliers stage durations) ∧
    (∀ o ∈ stageOutliers stage durations,
      o.threshold = t ∧ t ≤ (o.duration : ℝ) ∧ o.stage = stage ∧
        (o.batchId, o.duration) ∈ durations) := by
  subst ht
  unfold stageOutliers
  refine ⟨?_, ?_, ?_⟩
  · intro b d hmem heq
    refine List.mem_map.mpr ⟨(b, d), List.mem_filter.mpr ⟨hmem, ?_⟩, rfl⟩
    simp only [decide_eq_true_eq]
    exact le_of_eq heq.symm
  · intro b d hmem hlt hmem'
    obtain ⟨⟨b', d'⟩, hf, heq⟩ := List.mem_map.mp hmem'
    have hd : d' = d := congrArg OutlierEntry.duration heq
    obtain ⟨_, hge⟩ := List.mem_filter.mp hf
    simp only [decide_eq_true_eq] at hge
    rw [hd] at hge
    exact absurd hge (not_le.mpr hlt)
  · intro o ho
    obtain ⟨⟨b', d'⟩, hf, heq⟩ := List.mem_map.mp ho
    obtain ⟨hmem, hge⟩ := List.mem_filter.mp hf
    simp only [decide_eq_true_eq] at hge
    subst heq
    exact ⟨rfl, hge, rfl, hmem⟩

/-- Witness for C4: for the durations 5 and 5 the standard deviation is 0,
the threshold is exactly 5, and the duration sitting exactly on the
threshold is flagged with that threshold attached. -/
theorem c4_stage_outliers_witness :
    (⟨"A", "Assembly", 5, (5 : ℝ)⟩ : OutlierEntry) ∈
      stageOutliers "Assembly" [("A", (5 : ℚ)), ("B", 5)] := by
  have hcore : calculateStatisticsCore [(5 : ℚ), 5] = ⟨5, 5, 5, 5, 0⟩ := by
    norm_num [calculateStatisticsCore, List.insertionSort, List.orderedInsert, List.getLastI]
    exact List.cons_ne_nil _ _
  have ht : (5 : ℝ) =
      ((calculateStatistics ([("A", (5 : ℚ)), ("B", 5)].map (·.2))).mean : ℝ) +
        2 * (calculateStatistics ([("A", (5 : ℚ)), ("B", 5)].map (·.2))).standardDeviation := by
    simp [calculateStatistics, hcore]
  exact (c4_stage_outliers "Assembly" [("A", 5), ("B", 5)] 5 ht).1 "A" 5 (by decide)
    (by norm_num)

/-- The state of the lag loop after the first k candidate lags. -/
noncomputable def bestLagAux (mc : List MonthlyComparisonEntry) (k : ℕ) : ℝ × ℕ :=
  (List.range k).foldl (bestLagStep mc) (0, 0)

lemma bestLagAux_zero (mc : List MonthlyComparisonEntry) : bestLagAux mc 0 = (0, 0) := rfl

lemma bestLagAux_succ (mc : List MonthlyComparisonEntry) (k : ℕ) :
    bestLagAux mc (k + 1) = bestLagStep mc (bestLagAux mc k) k := by
  unfold bestLagAux
  rw [List.range_succ, List.foldl_append]
  rfl

lemma bestLagCorrelation_eq_aux (mc : List MonthlyComparisonEntry) :
    bestLagCorrelation mc = bestLagAux mc 4 := rfl

lemma bestLagStep_invalid (mc : List MonthlyComparisonEntry) (st : ℝ × ℕ) (lag : ℕ)
    (h : ¬ 3 ≤ (pairsAtLag mc lag).length) : bestLagStep mc st lag = st := by
  unfold bestLagStep
  simp [h]

lemma bestLagStep_improve (mc : List MonthlyComparisonEntry) (st : ℝ × ℕ) (lag : ℕ)
    (h : 3 ≤ (pairsAtLag mc lag).length)
    (h' : |pearsonOfPairs (pairsAtLag mc lag)| > |st.1|) :
    bestLagStep mc st lag = (pearsonOfPairs (pairsAtLag mc lag), lag) := by
  unfold bestLagStep
  simp [h, h']

lemma bestLagStep_keep (mc : List MonthlyComparisonEntry) (st : ℝ × ℕ) (lag : ℕ)
    (h : 3 ≤ (pairsAtLag mc lag).length)
    (h' : ¬ |pearsonOfPairs (pairsAtLag mc lag)| > |st.1|) :
    bestLagStep mc st lag = st := by
  unfold bestLagStep
  simp [h, h']

/-- Loop invariant of the lag selection: the best-so-far dominates every
valid processed lag in absolute value, and the state is either the initial
(0, 0) or records the first processed valid lag attaining that maximum. -/
lemma bestLagAux_spec (mc : List MonthlyComparisonEntry) (k : ℕ) :
    (∀ lag, lag < k → 3 ≤ (pairsAtLag mc lag).length →
      |pearsonOfPairs (pairsAtLag mc lag)| ≤ |(bestLagAux mc k).1|) ∧
    ((bestLagAux mc k).1 = 0 ∧ (bestLagAux mc k).2 = 0 ∨
      ((bestLagAux mc k).2 < k ∧ 3 ≤ (pairsAtLag mc (bestLagAux mc k).2).length ∧
        pearsonOfPairs (pairsAtLag mc (bestLagAux mc k).2) = (bestLagAux mc k).1 ∧
        ∀ lag, lag < (bestLagAux mc k).2 → 3 ≤ (pairsAtLag mc lag).length →
          |pearsonOfPairs (pairsAtLag mc lag)| < |(bestLagAux mc k).1|)) := by
  induction k with
  | zero =>
    refine ⟨fun lag h => absurd h (Nat.not_lt_zero lag), Or.inl ⟨rfl, rfl⟩⟩
  | succ k ih =>
    obtain ⟨ihA, ihB⟩ := ih
    rw [bestLagAux_succ]
    by_cases hv : 3 ≤ (pairsAtLag mc k).length
    · by_cases himp : |pearsonOfPairs (pairsAtLag mc k)| > |(bestLagAux mc k).1|
      · rw [bestLagStep_improve mc _ k hv himp]
        refine ⟨?_, Or.inr ⟨Nat.lt_succ_self k, hv, rfl, ?_⟩⟩
        · intro lag hlag hval
          rcases Nat.lt_succ_iff_lt_or_eq.mp hlag with h | h
          · exact le_of_lt (lt_of_le_of_lt (ihA lag h hval) himp)
          · subst h; exact le_refl _
        · intro lag hlag hval
          exact lt_of_le_of_lt (ihA lag hlag hval) himp
      · rw [bestLagStep_keep mc _ k hv himp]
        refine ⟨?_, ?_⟩
        · intro lag hlag hval
          rcases Nat.lt_succ_iff_lt_or_eq.mp hlag with h | h
          · exact ihA lag h hval
          · subst h; exact le_of_not_lt himp
        · rcases ihB with h | ⟨h1, h2, h3, h4⟩
          · exact Or.inl h
          · exact Or.inr ⟨Nat.lt_succ_of_lt h1, h2, h3, h4⟩
    · rw [bestLagStep_invalid mc _ k hv]
      refine ⟨?_, ?_⟩
      · intro lag hlag hval
        rcases Nat.lt_succ_iff_lt_or_eq.mp hlag with h | h
        · exact ihA lag h hval
        · subst h; exact absurd hval hv
      · rcases ihB with h | ⟨h1, h2, h3, h4⟩
        · exact Or.inl h
        · exact Or.inr ⟨Nat.lt_succ_of_lt h1, h2, h3, h4⟩

/-- C2: the lag loop considers exactly the lags 0..3; a Pearson correlation
enters the comparison only for a lag with at least 3 pairs; the selected
absolute correlation dominates every valid lag; and the outcome is either
the no-signal default correlation 0 with lag 0 (in particular whenever no
candidate lag has 3 pairs) or the first valid lag attaining the maximum,
every valid earlier lag being strictly smaller in absolute value, so a later
lag with merely equal absolute value never overwrites. -/
theorem c2_lag_correlation_selection (mc : List MonthlyComparisonEntry) :
    ((∀ lag, lag < 4 → (pairsAtLag mc lag).length < 3) →
      bestLagCorrelation mc = (0, 0)) ∧
    (∀ lag, lag < 4 → 3 ≤ (pairsAtLag mc lag).length →
      |pearsonOfPairs (pairsAtLag mc lag)| ≤ |(bestLagCorrelation mc).1|) ∧
    ((bestLagCorrelation mc).1 = 0 ∧ (bestLagCorrelation mc).2 = 0 ∨
      ((bestLagCorrelation mc).2 < 4 ∧
        3 ≤ (pairsAtLag mc (bestLagCorrelation mc).2).length ∧
        pearsonOfPairs (pairsAtLag mc (bestLagCorrelation mc).2) = (bestLagCorrelation mc).1 ∧
        ∀ lag, lag < (bestLagCorrelation mc).2 → 3 ≤ (pairsAtLag mc lag).length →
          |pearsonOfPairs (pairsAtLag mc lag)| < |(bestLagCorrelation mc).1|)) := by
  obtain ⟨hA, hB⟩ := bestLagAux_spec mc 4
  rw [bestLagCorrelation_eq_aux]
  refine ⟨?_, hA, hB⟩
  intro hnone
  rcases hB with ⟨h1, h2⟩ | ⟨h1, h2, _, _⟩
  · exact Prod.ext_iff.mpr ⟨h1, h2⟩
  · exact absurd h2 (Nat.not_le.mpr (hnone _ h1))

/-- Witness for C2: with no months at all every candidate lag has no pairs,
and the result is the no-signal default. -/
theorem c2_lag_correlation_selection_witness : bestLagCorrelation [] = (0, 0) :=
  (c2_lag_correlation_selection []).1 fun lag _ => by
    simp [pairsAtLag]

lemma foldl_append_toList (f : α → Option β) :
    ∀ (l : List α) (init : List β),
      l.foldl (fun acc x => acc ++ (f x).toList) init = init ++ l.filterMap f := by
  intro l
  induction l with
  | nil => intro init; simp
  | cons a t ih =>
    intro init
    cases h : f a <;>
      simp [List.foldl_cons, h, List.filterMap_cons, ih, List.append_assoc]

/-- The pair contributed by the month at index i for a given lag, as the
claim describes it: present exactly when i is at least lag and neither the
external month's RFT nor the lagged internal month's RFT is zero. -/
def claimedPairAt (mc : List MonthlyComparisonEntry) (lag i : ℕ) : Option (ℚ × ℚ) :=
  mc[i]?.bind fun em =>
    if lag ≤ i then
      mc[i - lag]?.bind fun im =>
        if em.externalRFT ≠ 0 ∧ im.internalRFT ≠ 0 then some (im.internalRFT, em.externalRFT)
        else none
    else none

/-- The source-side option variant of the pair condition, with the strict
positivity tests of the code. -/
def sourcePairAt (mc : List MonthlyComparisonEntry) (lag : ℕ)
    (p : ℕ × MonthlyComparisonEntry) : Option (ℚ × ℚ) :=
  if lag ≤ p.1 then
    match mc[p.1 - lag]? with
    | some internalMonth =>
      if 0 < p.2.externalRFT ∧ 0 < internalMonth.internalRFT then
        some (internalMonth.internalRFT, p.2.externalRFT)
      else none
    | none => none
  else none

lemma pairsAtLag_eq_filterMap (mc : List MonthlyComparisonEntry) (lag : ℕ) :
    pairsAtLag mc lag = mc.enum.filterMap (sourcePairAt mc lag) := by
  unfold pairsAtLag
  have hstep : (fun (pairs : List (ℚ × ℚ)) (p : ℕ × MonthlyComparisonEntry) =>
      if lag ≤ p.1 then
        match mc[p.1 - lag]? with
        | some internalMonth =>
          if 0 < p.2.externalRFT ∧ 0 < internalMonth.internalRFT then
            pairs ++ [(internalMonth.internalRFT, p.2.externalRFT)]
          else pairs
        | none => pairs
      else pairs) =
      fun (pairs : List (ℚ × ℚ)) p => pairs ++ (sourcePairAt mc lag p).toList := by
    funext pairs p
    unfold sourcePairAt
    by_cases h1 : lag ≤ p.1
    · simp only [if_pos h1]
      cases h2 : mc[p.1 - lag]? with
      | none => simp
      | some im =>
        by_cases h3 : 0 < p.2.externalRFT ∧ 0 < im.internalRFT
        · simp [h3]
        · simp [h3]
    · simp [h1]
  rw [hstep, foldl_append_toList, List.nil_append]

lemma enumFrom_filterMap_range (G : ℕ → α → Option β) :
    ∀ (l : List α) (s : ℕ),
      (List.enumFrom s l).filterMap (fun p => G p.1 p.2) =
        (List.range l.length).filterMap fun j => l[j]?.bind fun a => G (s + j) a := by
  intro l
  induction l with
  | nil => intro s; simp
  | cons a t ih =>
    intro s
    rw [List.enumFrom_cons, List.length_cons, List.range_succ_eq_map]
    rw [List.filterMap_cons, List.filterMap_cons, List.filterMap_map]
    have htail : (List.filterMap ((fun j => (a :: t)[j]?.bind fun x => G (s + j) x) ∘ Nat.succ)
        (List.range t.length)) =
        (List.range t.length).filterMap fun j => t[j]?.bind fun x => G (s + 1 + j) x := by
      apply List.filterMap_congr
      intro j _
      simp only [Function.comp_apply, List.getElem?_cons_succ]
      have : s + (j + 1) = s + 1 + j := by omega
      rw [this]
    rw [htail, ← ih (s + 1)]
    simp only [List.getElem?_cons_zero, Option.some_bind, Nat.add_zero]

lemma length_filterMap_eq_length_filter (f : α → Option β) :
    ∀ l : List α, (l.filterMap f).length = (l.filter fun a => (f a).isSome).length := by
  intro l
  induction l with
  | nil => rfl
  | cons a t ih =>
    cases h : f a <;> simp [List.filterMap_cons, List.filter_cons, h, ih]

/-- C10: under the invariant that RFT rates are nonnegative, the paired
series at a lag consists of exactly the pairs
(internal RFT of month i - lag, external RFT of month i) over the indices
i >= lag at which neither the external month's RFT nor the lagged internal
month's RFT is zero; months violating that are silently excluded and,
accordingly, do not count toward the pair count that the at-least-3-pairs
requirement inspects. -/
theorem c10_lag_pair_exclusion (mc : List MonthlyComparisonEntry)
    (h : ∀ m ∈ mc, 0 ≤ m.externalRFT ∧ 0 ≤ m.internalRFT) (lag : ℕ) :
    pairsAtLag mc lag = (List.range mc.length).filterMap (claimedPairAt mc lag) ∧
    (pairsAtLag mc lag).length =
      ((List.range mc.length).filter fun i => (claimedPairAt mc lag i).isSome).length := by
  have hmain : pairsAtLag mc lag = (List.range mc.length).filterMap (claimedPairAt mc lag) := by
    rw [pairsAtLag_eq_filterMap]
    have henum : mc.enum = List.enumFrom 0 mc := rfl
    rw [henum, enumFrom_filterMap_range (fun i m => sourcePairAt mc lag (i, m)) mc 0]
    apply List.filterMap_congr
    intro j hj
    have hjlen : j < mc.length := List.mem_range.mp hj
    rw [List.getElem?_eq_getElem hjlen]
    have hmem : mc[j] ∈ mc := List.getElem_mem hjlen
    unfold claimedPairAt sourcePairAt
    rw [List.getElem?_eq_getElem hjlen]
    simp only [Nat.zero_add, Option.some_bind]
    by_cases h1 : lag ≤ j
    · simp only [if_pos h1]
      have hjl : j - lag < mc.length := lt_of_le_of_lt (Nat.sub_le j lag) hjlen
      rw [List.getElem?_eq_getElem hjl]
      have hmem' : mc[j - lag] ∈ mc := List.getElem_mem hjl
      simp only [Option.some_bind]
      have he : (0 < mc[j].externalRFT ∧ 0 < mc[j - lag].internalRFT) ↔
          (mc[j].externalRFT ≠ 0 ∧ mc[j - lag].internalRFT ≠ 0) := by
        constructor
        · exact fun ⟨a, b⟩ => ⟨ne_of_gt a, ne_of_gt b⟩
        · intro ⟨a, b⟩
          exact ⟨lt_of_le_of_ne (h _ hmem).1 (Ne.symm a),
            lt_of_le_of_ne (h _ hmem').2 (Ne.symm b)⟩
      by_cases h2 : 0 < mc[j].externalRFT ∧ 0 < mc[j - lag].internalRFT
      · rw [if_pos h2, if_pos (he.mp h2)]
      · rw [if_neg h2, if_neg (fun hc => h2 (he.mpr hc))]
    · simp [h1]
  exact ⟨hmain, by rw [hmain, length_filterMap_eq_length_filter]⟩

/-- Witness for C10 at a three-month comparison list: the first month has
external RFT 0 and the second has internal RFT 0, so at lag 0 only the third
month contributes a pair. -/
theorem c10_lag_pair_exclusion_witness :
    pairsAtLag [⟨"2024-01", 0, 50, 1, 2⟩, ⟨"2024-02", 10, 0, 1, 2⟩,
        ⟨"2024-03", 20, 30, 1, 2⟩] 0 =
      (List.range 3).filterMap (claimedPairAt
        [⟨"2024-01", 0, 50, 1, 2⟩, ⟨"2024-02", 10, 0, 1, 2⟩, ⟨"2024-03", 20, 30, 1, 2⟩] 0) ∧
    pairsAtLag [⟨"2024-01", 0, 50, 1, 2⟩, ⟨"2024-02", 10, 0, 1, 2⟩,
        ⟨"2024-03", 20, 30, 1, 2⟩] 0 = [(30, 20)] := by
  refine ⟨(c10_lag_pair_exclusion _ ?_ 0).1, ?_⟩
  · intro m hm
    simp only [List.mem_cons, List.not_mem_nil, or_false] at hm
    rcases hm with h | h | h <;> subst h <;> exact ⟨by norm_num, by norm_num⟩
  · decide

lemma jsToFixed1_mono {a b : ℚ} (h : a ≤ b) : jsToFixed1 a ≤ jsToFixed1 b := by
  unfold jsToFixed1
  have hfloor : (⌊a * 10 + 1/2⌋ : ℤ) ≤ ⌊b * 10 + 1/2⌋ := Int.floor_mono (by linarith)
  have hcast : ((⌊a * 10 + 1/2⌋ : ℤ) : ℚ) ≤ ((⌊b * 10 + 1/2⌋ : ℤ) : ℚ) := by
    exact_mod_cast hfloor
  linarith

lemma jsToFixed1_100 : jsToFixed1 100 = 100 := by
  have h : ⌊(100 : ℚ) * 10 + 1/2⌋ = 1000 := by
    apply Int.floor_eq_iff.mpr
    constructor <;> norm_num
  rw [jsToFixed1, h]
  norm_num

lemma paretoAux_cumPct_ge {total : ℚ} (htotal : 0 < total) :
    ∀ (l : List (String × ℚ)) (cum : ℚ), (∀ x ∈ l, 0 ≤ x.2) →
      ∀ e ∈ paretoAux total cum l, jsToFixed1 (cum / total * 100) ≤ e.cumulativePercentage := by
  intro l
  induction l with
  | nil => intro cum _ e he; simp [paretoAux] at he
  | cons a t ih =>
    intro cum hpos e he
    obtain ⟨n, v⟩ := a
    simp only [paretoAux, List.mem_cons] at he
    have hv : 0 ≤ v := hpos (n, v) (List.mem_cons_self _ _)
    have hstep : jsToFixed1 (cum / total * 100) ≤ jsToFixed1 ((cum + v) / total * 100) := by
      apply jsToFixed1_mono
      gcongr
      linarith
    rcases he with he | he
    · subst he
      exact hstep
    · exact le_trans hstep (ih (cum + v) (fun x hx => hpos x (List.mem_cons_of_mem _ hx)) e he)

lemma paretoAux_chain {total : ℚ} (htotal : 0 < total) :
    ∀ (l : List (String × ℚ)) (cum : ℚ), (∀ x ∈ l, 0 ≤ x.2) →
      List.Chain' (· ≤ ·) ((paretoAux total cum l).map (·.cumulativePercentage)) := by
  intro l
  induction l with
  | nil => intro cum _; simp [paretoAux]
  | cons a t ih =>
    intro cum hpos
    obtain ⟨n, v⟩ := a
    simp only [paretoAux, List.map_cons]
    apply List.chain'_cons'.mpr
    refine ⟨?_, ih (cum + v) fun x hx => hpos x (List.mem_cons_of_mem _ hx)⟩
    intro b hb
    have hbmem : b ∈ (paretoAux total (cum + v) t).map (·.cumulativePercentage) :=
      List.mem_of_mem_head? hb
    obtain ⟨e, he, hbe⟩ := List.mem_map.mp hbmem
    subst hbe
    exact paretoAux_cumPct_ge htotal t (cum + v)
      (fun x hx => hpos x (List.mem_cons_of_mem _ hx)) e he

lemma paretoAux_getLast? (total : ℚ) :
    ∀ (l : List (String × ℚ)) (cum : ℚ), l ≠ [] →
      ((paretoAux total cum l).map (·.cumulativePercentage)).getLast? =
        some (jsToFixed1 ((cum + (l.map (·.2)).sum) / total * 100)) := by
  intro l
  induction l with
  | nil => intro cum h; exact absurd rfl h
  | cons a t ih =>
    intro cum _
    obtain ⟨n, v⟩ := a
    cases t with
    | nil =>
      simp [paretoAux]
    | cons b u =>
      obtain ⟨n', v'⟩ := b
      have hres := ih (cum + v) (List.cons_ne_nil _ _)
      simp only [paretoAux, List.map_cons] at hres ⊢
      rw [List.getLast?_cons_cons]
      rw [hres]
      congr 2
      simp only [List.sum_cons]
      ring

/-- C9 (amended): for inputs with nonnegative values and positive total, the
cumulativePercentage sequence of the Pareto ranking is non-decreasing and
its final entry is exactly 100 after the one-decimal rounding. -/
theorem c9_pareto_cumulative (items : List (String × ℚ))
    (h1 : ∀ x ∈ items, 0 ≤ x.2) (h2 : 0 < (items.map (·.2)).sum) :
    List.Chain' (· ≤ ·) ((calculateParetoData items).map (·.cumulativePercentage)) ∧
    ((calculateParetoData items).map (·.cumulativePercentage)).getLast? = some 100 := by
  have hperm := List.perm_insertionSort valueGE items
  have htot : 0 < ((items.insertionSort valueGE).map (·.2)).sum := by
    rw [(hperm.map (·.2)).sum_eq]
    exact h2
  have hnn : ∀ x ∈ items.insertionSort valueGE, 0 ≤ x.2 := fun x hx =>
    h1 x (hperm.mem_iff.mp hx)
  have hne : items.insertionSort valueGE ≠ [] := by
    intro hc
    have hlen := hperm.length_eq
    rw [hc] at hlen
    have : items = [] := List.length_eq_zero.mp hlen.symm
    rw [this] at h2
    simp at h2
  constructor
  · simpa only [calculateParetoData] using
      paretoAux_chain htot (items.insertionSort valueGE) 0 hnn
  · have hlast := paretoAux_getLast? (((items.insertionSort valueGE).map (·.2)).sum)
      (items.insertionSort valueGE) 0 hne
    simp only [calculateParetoData]
    rw [hlast, zero_add, div_self (ne_of_gt htot), one_mul, jsToFixed1_100]

/-- Counterexample for C9 as stated: with a negative value in the input the
cumulative percentages are 200 followed by 100, which is decreasing, so the
property does not hold for every input list. -/
theorem c9_pareto_counterexample :
    ¬ (List.Chain' (· ≤ ·)
        ((calculateParetoData [("a", (2 : ℚ)), ("b", -1)]).map (·.cumulativePercentage)) ∧
      ((calculateParetoData [("a", (2 : ℚ)), ("b", -1)]).map
        (·.cumulativePercentage)).getLast? = some 100) := by
  have h200 : jsToFixed1 200 = 200 := by
    have h : ⌊(200 : ℚ) * 10 + 1/2⌋ = 2000 := by
      apply Int.floor_eq_iff.mpr
      constructor <;> norm_num
    rw [jsToFixed1, h]
    norm_num
  have heval : (calculateParetoData [("a", (2 : ℚ)), ("b", -1)]).map
      (·.cumulativePercentage) = [200, 100] := by
    have hsort : [("a", (2 : ℚ)), ("b", -1)].insertionSort valueGE =
        [("a", (2 : ℚ)), ("b", -1)] := by
      simp [List.insertionSort, List.orderedInsert, valueGE]
      norm_num
    simp only [calculateParetoData, hsort]
    simp only [List.map_cons, List.map_nil, List.sum_cons, List.sum_nil, paretoAux]
    norm_num [h200, jsToFixed1_100]
  intro ⟨hchain, _⟩
  rw [heval] at hchain
  have := (List.chain'_cons.mp hchain).1
  norm_num at this

/-- Witness for C9 at two items of value 1: the hypotheses hold and the
cumulative percentages are non-decreasing and end at 100. -/
theorem c9_pareto_cumulative_witness :
    List.Chain' (· ≤ ·)
      ((calculateParetoData [("a", (1 : ℚ)), ("b", 1)]).map (·.cumulativePercentage)) ∧
    ((calculateParetoData [("a", (1 : ℚ)), ("b", 1)]).map
      (·.cumulativePercentage)).getLast? = some 100 :=
  c9_pareto_cumulative [("a", 1), ("b", 1)]
    (fun x hx => by
      simp only [List.mem_cons, List.not_mem_nil, or_false] at hx
      rcases hx with h | h <;> subst h <;> norm_num)
    (by norm_num)

lemma sorted_headI_le {l : List ℚ} (hs : l.Sorted (· ≤ ·)) {x : ℚ} (hx : x ∈ l) :
    l.headI ≤ x := by
  cases l with
  | nil => cases hx
  | cons a t =>
    rcases List.mem_cons.mp hx with h | h
    · subst h; exact le_refl _
    · exact (List.sorted_cons.mp hs).1 x h

lemma sorted_le_getLastI : ∀ {l : List ℚ}, l.Sorted (· ≤ ·) → ∀ {x : ℚ}, x ∈ l → x ≤ l.getLastI := by
  intro l
  induction l with
  | nil => intro _ x hx; cases hx
  | cons a t ih =>
    intro hs x hx
    obtain ⟨hall, hst⟩ := List.sorted_cons.mp hs
    cases t with
    | nil =>
      simp only [List.mem_singleton] at hx
      subst hx
      simp [List.getLastI_eq_getLast?, List.getLast?_singleton]
    | cons b u =>
      have hgl : (a :: b :: u).getLastI = (b :: u).getLastI := by
        rw [List.getLastI_eq_getLast?, List.getLastI_eq_getLast?, List.getLast?_cons_cons]
      rcases List.mem_cons.mp hx with h | h
      · subst h
        rw [hgl]
        exact le_trans (hall b (List.mem_cons_self _ _)) (ih hst (List.mem_cons_self _ _))
      · rw [hgl]
        exact ih hst h

lemma getD_mem_of_lt {l : List ℚ} {i : ℕ} (h : i < l.length) : l.getD i 0 ∈ l := by
  rw [List.getD_eq_getElem l 0 h]
  exact List.getElem_mem h

/-- The else-branch unfolding of calculateStatisticsCore. -/
lemma calculateStatisticsCore_of_ne_nil {l : List ℚ} (h : l ≠ []) :
    calculateStatisticsCore l =
      { min := (l.insertionSort (· ≤ ·)).headI
        max := (l.insertionSort (· ≤ ·)).getLastI
        mean := (l.insertionSort (· ≤ ·)).sum / ((l.insertionSort (· ≤ ·)).length : ℚ)
        median :=
          if (l.insertionSort (· ≤ ·)).length % 2 = 0 then
            ((l.insertionSort (· ≤ ·)).getD ((l.insertionSort (· ≤ ·)).length / 2 - 1) 0 +
              (l.insertionSort (· ≤ ·)).getD ((l.insertionSort (· ≤ ·)).length / 2) 0) / 2
          else (l.insertionSort (· ≤ ·)).getD ((l.insertionSort (· ≤ ·)).length / 2) 0
        variance :=
          ((l.insertionSort (· ≤ ·)).map fun v =>
            (v - (l.insertionSort (· ≤ ·)).sum / ((l.insertionSort (· ≤ ·)).length : ℚ)) *
              (v - (l.insertionSort (· ≤ ·)).sum /
                ((l.insertionSort (· ≤ ·)).length : ℚ))).sum /
            ((((l.insertionSort (· ≤ ·)).map fun v =>
              (v - (l.insertionSort (· ≤ ·)).sum / ((l.insertionSort (· ≤ ·)).length : ℚ)) *
                (v - (l.insertionSort (· ≤ ·)).sum /
                  ((l.insertionSort (· ≤ ·)).length : ℚ))).length : ℚ)) } := by
  simp only [calculateStatisticsCore, if_neg h]

lemma calculateStatistics_min (l : List ℚ) :
    (calculateStatistics l).min = (calculateStatisticsCore l).min := rfl

lemma calculateStatistics_max (l : List ℚ) :
    (calculateStatistics l).max = (calculateStatisticsCore l).max := rfl

lemma calculateStatistics_mean (l : List ℚ) :
    (calculateStatistics l).mean = (calculateStatisticsCore l).mean := rfl

lemma calculateStatistics_median (l : List ℚ) :
    (calculateStatistics l).median = (calculateStatisticsCore l).median := rfl

/-- C7: statistics of the empty list is the all-zero record (a value, not an
error); for a nonempty list min <= median <= max and min <= mean <= max; and
the median is the average of the two middle entries of the sorted copy for
even length and the middle entry for odd length, stated against any sorted
permutation of the input. -/
theorem c7_statistics (l : List ℚ) (hl : l ≠ []) :
    calculateStatistics [] = ⟨0, 0, 0, 0, 0⟩ ∧
    (calculateStatistics l).min ≤ (calculateStatistics l).median ∧
    (calculateStatistics l).median ≤ (calculateStatistics l).max ∧
    (calculateStatistics l).min ≤ (calculateStatistics l).mean ∧
    (calculateStatistics l).mean ≤ (calculateStatistics l).max ∧
    ∀ s : List ℚ, s.Perm l → s.Sorted (· ≤ ·) →
      (calculateStatistics l).median =
        if l.length % 2 = 0 then
          (s.getD (l.length / 2 - 1) 0 + s.getD (l.length / 2) 0) / 2
        else s.getD (l.length / 2) 0 := by
  have hsort := List.sorted_insertionSort ((· ≤ ·) : ℚ → ℚ → Prop) l
  have hperm := List.perm_insertionSort ((· ≤ ·) : ℚ → ℚ → Prop) l
  have hlen : (l.insertionSort (· ≤ ·)).length = l.length := hperm.length_eq
  have hlpos : 0 < l.length := List.length_pos.mpr hl
  have hspos : 0 < (l.insertionSort (· ≤ ·)).length := by rw [hlen]; exact hlpos
  have hcore := calculateStatisticsCore_of_ne_nil hl
  have hqpos : (0 : ℚ) < ((l.insertionSort (· ≤ ·)).length : ℚ) := by exact_mod_cast hspos
  have hmidlt : (l.insertionSort (· ≤ ·)).length / 2 < (l.insertionSort (· ≤ ·)).length :=
    Nat.div_lt_self hspos (by norm_num)
  have hmid1lt : (l.insertionSort (· ≤ ·)).length / 2 - 1 < (l.insertionSort (· ≤ ·)).length :=
    lt_of_le_of_lt (Nat.sub_le _ 1) hmidlt
  refine ⟨?_, ?_, ?_, ?_, ?_, ?_⟩
  · simp [calculateStatistics, calculateStatisticsCore]
  · rw [calculateStatistics_min, calculateStatistics_median, hcore]
    simp only
    split_ifs
    · have h1 := sorted_headI_le hsort (getD_mem_of_lt hmid1lt)
      have h2 := sorted_headI_le hsort (getD_mem_of_lt hmidlt)
      linarith
    · exact sorted_headI_le hsort (getD_mem_of_lt hmidlt)
  · rw [calculateStatistics_max, calculateStatistics_median, hcore]
    simp only
    split_ifs
    · have h1 := sorted_le_getLastI hsort (getD_mem_of_lt hmid1lt)
      have h2 := sorted_le_getLastI hsort (getD_mem_of_lt hmidlt)
      linarith
    · exact sorted_le_getLastI hsort (getD_mem_of_lt hmidlt)
  · rw [calculateStatistics_min, calculateStatistics_mean, hcore]
    simp only
    have hb := List.card_nsmul_le_sum (l.insertionSort (· ≤ ·))
      (l.insertionSort (· ≤ ·)).headI (fun x hx => sorted_headI_le hsort hx)
    rw [nsmul_eq_mul] at hb
    rw [le_div_iff₀ hqpos]
    linarith
  · rw [calculateStatistics_max, calculateStatistics_mean, hcore]
    simp only
    have hb := List.sum_le_card_nsmul (l.insertionSort (· ≤ ·))
      (l.insertionSort (· ≤ ·)).getLastI (fun x hx => sorted_le_getLastI hsort hx)
    rw [nsmul_eq_mul] at hb
    rw [div_le_iff₀ hqpos]
    linarith
  · intro s hp hs
    have hseq : s = l.insertionSort (· ≤ ·) :=
      List.eq_of_perm_of_sorted (hp.trans hperm.symm) hs hsort
    subst hseq
    rw [calculateStatistics_median, hcore]
    simp only [hlen]

/-- Witness for C7 at the concrete list [1, 3]: its median is 2, the average
of the two middle elements of its sorted copy. -/
theorem c7_statistics_witness : (calculateStatistics [(1 : ℚ), 3]).median = 2 := by
  have h := (c7_statistics [(1 : ℚ), 3] (by simp)).2.2.2.2.2 [1, 3] (List.Perm.refl _)
    (by norm_num [List.sorted_cons])
  rw [h]
  norm_num [List.getD]

/-- Modelled from the spec: the JS Date parsing used by groupRecordsByMonth
together with its YYYY-MM key formatting, which is not itself in the
repository sources in translatable form. The spec validates dates against an
ISO-date-prefix pattern YYYY-MM-DD...; this model accepts exactly such
strings and returns their YYYY-MM prefix, which agrees with the source for
mid-month ISO dates independently of the host timezone. It only serves to
instantiate the abstract parse parameter at concrete inputs. -/
def isoMonthKey (s : String) : Option String :=
  match s.data with
  | y1 :: y2 :: y3 :: y4 :: h1 :: m1 :: m2 :: h2 :: d1 :: d2 :: _ =>
    if y1.isDigit ∧ y2.isDigit ∧ y3.isDigit ∧ y4.isDigit ∧ h1 = '-' ∧
        m1.isDigit ∧ m2.isDigit ∧ h2 = '-' ∧ d1.isDigit ∧ d2.isDigit then
      some ⟨[y1, y2, y3, y4, h1, m1, m2]⟩
    else none
  | _ => none

/-- C1 (amended): when every record's source tag is absent, the internal and
external RFT transformers take their early exits and leave the placeholder
empty section objects untouched, modelled as none: the sections exist but
carry no recordCount field at all (rather than recordCount 0); no exception
is raised, the transformers being total; and the overview section still
reports every input record in totalRecords. -/
theorem c1_absent_source (parse : String → Option String)
    (dateDiff : String → String → Option ℚ) (records : List Record)
    (hne : records ≠ []) (hsrc : ∀ r ∈ records, r.source = none) :
    transformInternalRFTData parse dateDiff records = none ∧
    transformExternalRFTData parse records = none ∧
    (transformOverviewData parse records).map (·.totalRecords) = some records.length := by
  have hfi : records.filter (fun r =>
      r.source = some "Process" || r.source = some "Internal") = [] := by
    rw [List.filter_eq_nil_iff]
    intro r hr
    simp [hsrc r hr]
  have hfe : records.filter (fun r => r.source = some "External") = [] := by
    rw [List.filter_eq_nil_iff]
    intro r hr
    simp [hsrc r hr]
  refine ⟨?_, ?_, ?_⟩
  · simp [transformInternalRFTData, hne, hfi]
  · simp [transformExternalRFTData, hne, hfe]
  · simp [transformOverviewData, hne]

/-- Counterexample for C1 as stated: on a single record without a source,
the internal RFT section is the untouched placeholder, so its recordCount is
not 0 (the field does not exist); in particular the claimed recordCount 0 of
both sections fails. -/
theorem c1_absent_source_counterexample :
    ¬ (((transformInternalRFTData isoMonthKey (fun _ _ => none)
          [{ assembly_start := some "2024-03-15" }]).map (·.recordCount) = some 0) ∧
      ((transformExternalRFTData isoMonthKey
          [{ assembly_start := some "2024-03-15" }]).map (·.recordCount) = some 0)) := by
  intro h
  have hnone : (transformInternalRFTData isoMonthKey (fun _ _ => none)
      [{ assembly_start := some "2024-03-15" }]).map (·.recordCount) = none := by decide
  rw [hnone] at h
  exact Option.noConfusion h.1

/-- Witness for C1 at a concrete sourceless record. -/
theorem c1_absent_source_witness :
    transformInternalRFTData isoMonthKey (fun _ _ => none)
      [{ assembly_start := some "2024-03-15" }] = none ∧
    transformExternalRFTData isoMonthKey
      [{ assembly_start := some "2024-03-15" }] = none ∧
    (transformOverviewData isoMonthKey
      [{ assembly_start := some "2024-03-15" }]).map (·.totalRecords) = some 1 :=
  c1_absent_source isoMonthKey (fun _ _ => none) [{ assembly_start := some "2024-03-15" }]
    (by simp) (fun r hr => by
      simp only [List.mem_singleton] at hr
      subst hr
      rfl)

/-- The grouping object built by groupRecordsByMonth before sorting and
slicing, named for the proofs below. -/
def monthGroupsOf (parse : String → Option String) (records : List Record) :
    List (String × List Record) :=
  records.foldl
    (fun groups r =>
      match monthKeyOf parse r with
      | some k => addToGroups k r groups
      | none => groups)
    []

lemma groupRecordsByMonth_eq (parse : String → Option String) (records : List Record)
    (monthCount : ℕ) :
    groupRecordsByMonth parse records monthCount =
      (jsSliceLast monthCount
        (((monthGroupsOf parse records).map (·.1)).insertionSort jsStrLe)).map
        fun m => (m, ((monthGroupsOf parse records).lookup m).getD []) := rfl

lemma addToGroups_keys (k : String) (r : Record) :
    ∀ gs : List (String × List Record),
      (addToGroups k r gs).map (·.1) =
        if k ∈ gs.map (·.1) then gs.map (·.1) else gs.map (·.1) ++ [k] := by
  intro gs
  induction gs with
  | nil => simp [addToGroups]
  | cons p rest ih =>
    obtain ⟨k', g⟩ := p
    by_cases hk : k' = k
    · subst hk
      simp [addToGroups]
    · simp only [addToGroups, if_neg hk, List.map_cons, ih]
      by_cases hmem : k ∈ rest.map (·.1)
      · simp [hmem, Ne.symm hk]
      · simp [hmem, Ne.symm hk]

lemma addToGroups_mem_keys (k : String) (r : Record) (gs : List (String × List Record))
    (a : String) :
    a ∈ (addToGroups k r gs).map (·.1) ↔ a ∈ gs.map (·.1) ∨ a = k := by
  rw [addToGroups_keys]
  by_cases hmem : k ∈ gs.map (·.1)
  · simp only [if_pos hmem]
    constructor
    · exact Or.inl
    · rintro (h | h)
      · exact h
      · subst h; exact hmem
  · simp [if_neg hmem]

lemma addToGroups_nodup (k : String) (r : Record) (gs : List (String × List Record))
    (h : (gs.map (·.1)).Nodup) : ((addToGroups k r gs).map (·.1)).Nodup := by
  rw [addToGroups_keys]
  by_cases hmem : k ∈ gs.map (·.1)
  · simpa [if_pos hmem]
  · simp [if_neg hmem, List.nodup_append, h, hmem]

lemma addToGroups_values (k : String) (r : Record)
    (key : Record → Option String) (hk : key r = some k) :
    ∀ gs : List (String × List Record),
      (∀ p ∈ gs, ∀ x ∈ p.2, key x = some p.1) →
      ∀ p ∈ addToGroups k r gs, ∀ x ∈ p.2, key x = some p.1 := by
  intro gs
  induction gs with
  | nil =>
    intro _ p hp x hx
    simp only [addToGroups, List.mem_singleton] at hp
    subst hp
    simp only [List.mem_singleton] at hx
    subst hx
    exact hk
  | cons q rest ih =>
    intro hinv p hp x hx
    obtain ⟨k', g⟩ := q
    by_cases hkk : k' = k
    · subst hkk
      simp only [addToGroups, eq_self_iff_true, if_true, List.mem_cons] at hp
      rcases hp with hp | hp
      · subst hp
        simp only [List.mem_append, List.mem_singleton] at hx
        rcases hx with hx | hx
        · exact hinv (k', g) (List.mem_cons_self _ _) x hx
        · subst hx; exact hk
      · exact hinv p (List.mem_cons_of_mem _ hp) x hx
    · simp only [addToGroups, if_neg hkk, List.mem_cons] at hp
      rcases hp with hp | hp
      · subst hp
        exact hinv (k', g) (List.mem_cons_self _ _) x hx
      · exact ih (fun q hq => hinv q (List.mem_cons_of_mem _ hq)) p hp x hx

lemma monthGroups_fold_mem_keys (parse : String → Option String) :
    ∀ (records : List Record) (gs : List (String × List Record)) (a : String),
      (a ∈ (records.foldl
        (fun groups r =>
          match monthKeyOf parse r with
          | some k => addToGroups k r groups
          | none => groups) gs).map (·.1)) ↔
      a ∈ gs.map (·.1) ∨ ∃ r ∈ records, monthKeyOf parse r = some a := by
  intro records
  induction records with
  | nil => intro gs a; simp
  | cons r rest ih =>
    intro gs a
    rw [List.foldl_cons]
    cases hkey : monthKeyOf parse r with
    | none =>
      rw [ih]
      simp only [List.mem_cons]
      constructor
      · rintro (h | ⟨r', hr', hk'⟩)
        · exact Or.inl h
        · exact Or.inr ⟨r', Or.inr hr', hk'⟩
      · rintro (h | ⟨r', hr' | hr', hk'⟩)
        · exact Or.inl h
        · subst hr'; rw [hkey] at hk'; exact Option.noConfusion hk'
        · exact Or.inr ⟨r', hr', hk'⟩
    | some k =>
      rw [ih]
      rw [addToGroups_mem_keys]
      simp only [List.mem_cons]
      constructor
      · rintro ((h | h) | ⟨r', hr', hk'⟩)
        · exact Or.inl h
        · exact Or.inr ⟨r, Or.inl rfl, by rw [hkey, h]⟩
        · exact Or.inr ⟨r', Or.inr hr', hk'⟩
      · rintro (h | ⟨r', hr' | hr', hk'⟩)
        · exact Or.inl (Or.inl h)
        · subst hr'
          rw [hkey] at hk'
          exact Or.inl (Or.inr (Option.some_inj.mp hk').symm)
        · exact Or.inr ⟨r', hr', hk'⟩

lemma monthGroups_fold_nodup (parse : String → Option String) :
    ∀ (records : List Record) (gs : List (String × List Record)),
      (gs.map (·.1)).Nodup →
      ((records.foldl
        (fun groups r =>
          match monthKeyOf parse r with
          | some k => addToGroups k r groups
          | none => groups) gs).map (·.1)).Nodup := by
  intro records
  induction records with
  | nil => intro gs h; simpa
  | cons r rest ih =>
    intro gs h
    rw [List.foldl_cons]
    cases hkey : monthKeyOf parse r with
    | none => exact ih gs h
    | some k => exact ih _ (addToGroups_nodup k r gs h)

lemma monthGroups_fold_values (parse : String → Option String) :
    ∀ (records : List Record) (gs : List (String × List Record)),
      (∀ p ∈ gs, ∀ x ∈ p.2, monthKeyOf parse x = some p.1) →
      ∀ p ∈ (records.foldl
        (fun groups r =>
          match monthKeyOf parse r with
          | some k => addToGroups k r groups
          | none => groups) gs),
        ∀ x ∈ p.2, monthKeyOf parse x = some p.1 := by
  intro records
  induction records with
  | nil => intro gs h; exact h
  | cons r rest ih =>
    intro gs h
    rw [List.foldl_cons]
    cases hkey : monthKeyOf parse r with
    | none => exact ih gs h
    | some k => exact ih _ (addToGroups_values k r (monthKeyOf parse) hkey gs h)

lemma lookup_mem_of_eq_some {gs : List (String × List Record)} {k : String}
    {g : List Record} (h : gs.lookup k = some g) : (k, g) ∈ gs := by
  induction gs with
  | nil => exact Option.noConfusion h
  | cons p rest ih =>
    obtain ⟨k', g'⟩ := p
    by_cases hk : k = k'
    · subst hk
      rw [List.lookup_cons_self] at h
      exact (Option.some_inj.mp h) ▸ List.mem_cons_self _ _
    · simp only [List.lookup_cons, beq_false_of_ne hk] at h
      exact List.mem_cons_of_mem _ (ih h)

/-- C8 (amended): for a limit of at least 1, month bucketing returns at most
limit month keys; the returned keys are exactly the lexicographically
largest limit keys among the distinct YYYY-MM keys present in the records;
and a record whose date field is missing, a placeholder, or unparseable
appears in no bucket. For limit = 0 the slice(-0) quirk returns every key,
see the counterexample. -/
theorem c8_month_bucketing (parse : String → Option String) (records : List Record)
    (limit : ℕ) (hlimit : 1 ≤ limit) :
    ((groupRecordsByMonth parse records limit).map (·.1)).length ≤ limit ∧
    (groupRecordsByMonth parse records limit).map (·.1) =
      (((records.filterMap (monthKeyOf parse)).dedup).insertionSort jsStrLe).drop
        ((((records.filterMap (monthKeyOf parse)).dedup).insertionSort jsStrLe).length -
          limit) ∧
    ∀ r ∈ records, monthKeyOf parse r = none →
      ∀ p ∈ groupRecordsByMonth parse records limit, r ∉ p.2 := by
  have hGdef : monthGroupsOf parse records = records.foldl
      (fun groups r =>
        match monthKeyOf parse r with
        | some k => addToGroups k r groups
        | none => groups) [] := rfl
  have hmem : ∀ a, a ∈ (monthGroupsOf parse records).map (·.1) ↔
      ∃ r ∈ records, monthKeyOf parse r = some a := by
    intro a
    rw [hGdef, monthGroups_fold_mem_keys]
    simp
  have hnodup : ((monthGroupsOf parse records).map (·.1)).Nodup := by
    rw [hGdef]
    exact monthGroups_fold_nodup parse records [] (by simp)
  have hvals : ∀ p ∈ monthGroupsOf parse records, ∀ x ∈ p.2,
      monthKeyOf parse x = some p.1 := by
    rw [hGdef]
    exact monthGroups_fold_values parse records [] (by simp)
  have hperm : ((monthGroupsOf parse records).map (·.1)).Perm
      ((records.filterMap (monthKeyOf parse)).dedup) := by
    rw [List.perm_ext_iff_of_nodup hnodup (List.nodup_dedup _)]
    intro a
    rw [hmem, List.mem_dedup, List.mem_filterMap]
  have hsorted_eq : ((monthGroupsOf parse records).map (·.1)).insertionSort jsStrLe =
      ((records.filterMap (monthKeyOf parse)).dedup).insertionSort jsStrLe :=
    List.eq_of_perm_of_sorted
      ((List.perm_insertionSort _ _).trans (hperm.trans (List.perm_insertionSort _ _).symm))
      (List.sorted_insertionSort _ _) (List.sorted_insertionSort _ _)
  have hslice : ∀ l : List String, jsSliceLast limit l = l.drop (l.length - limit) := by
    intro l
    unfold jsSliceLast
    rw [if_neg (by omega)]
  have hmapfst : (groupRecordsByMonth parse records limit).map (·.1) =
      jsSliceLast limit (((monthGroupsOf parse records).map (·.1)).insertionSort jsStrLe) := by
    rw [groupRecordsByMonth_eq, List.map_map]
    exact List.map_id' _
  refine ⟨?_, ?_, ?_⟩
  · rw [hmapfst, hslice, List.length_drop]
    omega
  · rw [hmapfst, hslice, hsorted_eq]
  · intro r hr hkey p hp hrin
    rw [groupRecordsByMonth_eq] at hp
    obtain ⟨m, hm, hpe⟩ := List.mem_map.mp hp
    subst hpe
    cases hlook : (monthGroupsOf parse records).lookup m with
    | none =>
      rw [hlook] at hrin
      simp at hrin
    | some g =>
      rw [hlook] at hrin
      have hval := hvals (m, g) (lookup_mem_of_eq_some hlook) r (by simpa using hrin)
      rw [hkey] at hval
      exact Option.noConfusion hval

/-- Counterexample for C8 as stated: with limit 0 the source slices with
slice(-0), which is slice(0) and keeps every key, so one month key is
returned even though the limit is 0. -/
theorem c8_month_bucketing_counterexample :
    ¬ (((groupRecordsByMonth isoMonthKey
        [{ assembly_start := some "2024-03-15" }] 0).map (·.1)).length ≤ 0) := by
  decide

/-- Witness for C8 with two months and limit 1: at most one key is returned
and it is the lexicographically largest month present. -/
theorem c8_month_bucketing_witness :
    ((groupRecordsByMonth isoMonthKey
      [{ assembly_start := some "2024-01-15" }, { assembly_start := some "2024-02-15" }]
      1).map (·.1)).length ≤ 1 ∧
    (groupRecordsByMonth isoMonthKey
      [{ assembly_start := some "2024-01-15" }, { assembly_start := some "2024-02-15" }]
      1).map (·.1) = ["2024-02"] :=
  ⟨(c8_month_bucketing isoMonthKey
      [{ assembly_start := some "2024-01-15" }, { assembly_start := some "2024-02-15" }]
      1 (le_refl 1)).1,
    by decide⟩

/-- The flat stream of error-type tokens over the records that carry errors,
in record order: the token multiset that analyzeErrorTypes counts. -/
def errorTokenStream (records : List Record) : List String :=
  (records.filter fun r => r.hasErrors && errValTruthy r.errorTypes).flatMap fun r =>
    errorTokens r.errorTypes

lemma addCount_keys (k : String) :
    ∀ cs : List (String × ℕ),
      (addCount k cs).map (·.1) =
        if k ∈ cs.map (·.1) then cs.map (·.1) else cs.map (·.1) ++ [k] := by
  intro cs
  induction cs with
  | nil => simp [addCount]
  | cons p rest ih =>
    obtain ⟨k', c⟩ := p
    by_cases hk : k' = k
    · subst hk
      simp [addCount]
    · simp only [addCount, if_neg hk, List.map_cons, ih]
      by_cases hmem : k ∈ rest.map (·.1)
      · simp [hmem, Ne.symm hk]
      · simp [hmem, Ne.symm hk]

lemma addCount_mem_keys (k : String) (cs : List (String × ℕ)) (a : String) :
    a ∈ (addCount k cs).map (·.1) ↔ a ∈ cs.map (·.1) ∨ a = k := by
  rw [addCount_keys]
  by_cases hmem : k ∈ cs.map (·.1)
  · simp only [if_pos hmem]
    constructor
    · exact Or.inl
    · rintro (h | h)
      · exact h
      · subst h; exact hmem
  · simp [if_neg hmem]

lemma addCount_nodup (k : String) (cs : List (String × ℕ))
    (h : (cs.map (·.1)).Nodup) : ((addCount k cs).map (·.1)).Nodup := by
  rw [addCount_keys]
  by_cases hmem : k ∈ cs.map (·.1)
  · simpa [if_pos hmem]
  · simp [if_neg hmem, List.nodup_append, h, hmem]

lemma addCount_lookup (k : String) :
    ∀ (cs : List (String × ℕ)) (a : String),
      (addCount k cs).lookup a =
        if a = k then some (((cs.lookup k).getD 0) + 1) else cs.lookup a := by
  intro cs
  induction cs with
  | nil =>
    intro a
    by_cases ha : a = k
    · subst ha
      simp [addCount, List.lookup_cons_self]
    · simp [addCount, List.lookup_cons, beq_false_of_ne ha, ha]
  | cons p rest ih =>
    intro a
    obtain ⟨k', c⟩ := p
    by_cases hk : k' = k
    · subst hk
      by_cases ha : a = k'
      · subst ha
        simp [addCount, List.lookup_cons_self]
      · simp [addCount, List.lookup_cons, beq_false_of_ne ha, ha]
    · by_cases ha : a = k'
      · subst ha
        simp [addCount, if_neg hk, List.lookup_cons_self,
          if_neg (fun hc => hk (hc ▸ rfl) : ¬ a = k)]
      · simp only [addCount, if_neg hk, List.lookup_cons, beq_false_of_ne ha,
          beq_false_of_ne (Ne.symm hk)]
        exact ih a

lemma countFold_lookup :
    ∀ (ts : List String) (cs : List (String × ℕ)) (a : String),
      ((ts.foldl (fun cs t => addCount t cs) cs).lookup a).getD 0 =
        ((cs.lookup a).getD 0) + ts.count a := by
  intro ts
  induction ts with
  | nil => intro cs a; simp
  | cons t rest ih =>
    intro cs a
    rw [List.foldl_cons, ih, List.count_cons]
    by_cases ha : a = t
    · subst ha
      rw [addCount_lookup]
      simp
      omega
    · rw [addCount_lookup]
      simp [if_neg ha, beq_false_of_ne (Ne.symm ha)]

lemma countFold_mem_keys :
    ∀ (ts : List String) (cs : List (String × ℕ)) (a : String),
      a ∈ ((ts.foldl (fun cs t => addCount t cs) cs).map (·.1)) ↔
        a ∈ cs.map (·.1) ∨ a ∈ ts := by
  intro ts
  induction ts with
  | nil => intro cs a; simp
  | cons t rest ih =>
    intro cs a
    rw [List.foldl_cons, ih, addCount_mem_keys]
    simp only [List.mem_cons]
    tauto

lemma countFold_nodup :
    ∀ (ts : List String) (cs : List (String × ℕ)),
      (cs.map (·.1)).Nodup →
      ((ts.foldl (fun cs t => addCount t cs) cs).map (·.1)).Nodup := by
  intro ts
  induction ts with
  | nil => intro cs h; simpa
  | cons t rest ih =>
    intro cs h
    rw [List.foldl_cons]
    exact ih _ (addCount_nodup t cs h)

lemma lookup_of_mem_of_nodup :
    ∀ {cs : List (String × ℕ)}, (cs.map (·.1)).Nodup →
      ∀ {p : String × ℕ}, p ∈ cs → cs.lookup p.1 = some p.2 := by
  intro cs
  induction cs with
  | nil => intro _ p hp; cases hp
  | cons q rest ih =>
    intro hnd p hp
    obtain ⟨k', c⟩ := q
    rcases List.mem_cons.mp hp with hp | hp
    · subst hp
      exact List.lookup_cons_self
    · have hne : p.1 ≠ k' := by
        intro hc
        have hk' : p.1 ∈ rest.map (·.1) := List.mem_map.mpr ⟨p, hp, rfl⟩
        rw [List.map_cons] at hnd
        exact (List.nodup_cons.mp hnd).1 (hc ▸ hk')
      rw [List.lookup_cons, beq_false_of_ne hne]
      exact ih (by rw [List.map_cons] at hnd; exact (List.nodup_cons.mp hnd).2) hp

lemma errorCounts_eq_flat :
    ∀ (rs : List Record) (cs : List (String × ℕ)),
      rs.foldl (fun counts r =>
          (errorTokens r.errorTypes).foldl (fun cs t => addCount t cs) counts) cs =
        (rs.flatMap fun r => errorTokens r.errorTypes).foldl
          (fun cs t => addCount t cs) cs := by
  intro rs
  induction rs with
  | nil => intro cs; rfl
  | cons r rest ih =>
    intro cs
    rw [List.foldl_cons, List.flatMap_cons, List.foldl_append, ih]

/-- The records whose error types are counted: carrying the error flag and a
truthy errorTypes value. -/
def recordsWithErrorsOf (records : List Record) : List Record :=
  records.filter fun r => r.hasErrors && errValTruthy r.errorTypes

/-- The insertion-ordered error-type count table of analyzeErrorTypes. -/
def errorCountsOf (records : List Record) : List (String × ℕ) :=
  (recordsWithErrorsOf records).foldl
    (fun counts r => (errorTokens r.errorTypes).foldl (fun cs t => addCount t cs) counts) []

/-- The count table sorted descending by count. -/
def errorArrayOf (records : List Record) : List (String × ℕ) :=
  (errorCountsOf records).insertionSort countGE

/-- The total number of error-type occurrences, as summed by the source over
the sorted array before the truncation. -/
def totalErrorsOf (records : List Record) : ℕ :=
  ((errorArrayOf records).map (·.2)).sum

lemma analyzeErrorTypes_eq (records : List Record) (n : ℕ) (h : records ≠ []) :
    analyzeErrorTypes records n =
      ((errorArrayOf records).map fun e =>
        (⟨e.1, e.2, (e.2 : ℚ) / (totalErrorsOf records : ℚ) * 100⟩ : ErrorTypeEntry)).take n := by
  simp only [analyzeErrorTypes, if_neg h]
  rfl

lemma errorCounts_flat (records : List Record) :
    errorCountsOf records =
      (errorTokenStream records).foldl (fun cs t => addCount t cs) [] := by
  unfold errorCountsOf errorTokenStream recordsWithErrorsOf
  rw [errorCounts_eq_flat]

lemma errorCounts_nodup (records : List Record) :
    ((errorCountsOf records).map (·.1)).Nodup := by
  rw [errorCounts_flat]
  exact countFold_nodup _ [] (by simp)

lemma errorCounts_mem_keys (records : List Record) (a : String) :
    a ∈ (errorCountsOf records).map (·.1) ↔ a ∈ errorTokenStream records := by
  rw [errorCounts_flat, countFold_mem_keys]
  simp

lemma errorCounts_entry_count (records : List Record) :
    ∀ p ∈ errorCountsOf records, p.2 = (errorTokenStream records).count p.1 := by
  intro p hp
  have hlk := lookup_of_mem_of_nodup (errorCounts_nodup records) hp
  have hc := countFold_lookup (errorTokenStream records) [] p.1
  rw [← errorCounts_flat, hlk] at hc
  simpa using hc

lemma totalErrors_eq (records : List Record) :
    totalErrorsOf records = (errorTokenStream records).length := by
  have hperm : (errorArrayOf records).Perm (errorCountsOf records) :=
    List.perm_insertionSort _ _
  unfold totalErrorsOf
  rw [(hperm.map (·.2)).sum_eq]
  rw [List.map_congr_left (errorCounts_entry_count records)]
  have hkeysperm : (((errorCountsOf records).map (·.1)).map
      fun k => (errorTokenStream records).count k).Perm
        (((errorTokenStream records).dedup).map
          fun k => (errorTokenStream records).count k) := by
    apply List.Perm.map
    rw [List.perm_ext_iff_of_nodup (errorCounts_nodup records) (List.nodup_dedup _)]
    intro a
    rw [errorCounts_mem_keys, List.mem_dedup]
  calc ((errorCountsOf records).map fun p => (errorTokenStream records).count p.1).sum
      = (((errorCountsOf records).map (·.1)).map
          fun k => (errorTokenStream records).count k).sum := by rw [List.map_map]; rfl
    _ = (((errorTokenStream records).dedup).map
          fun k => (errorTokenStream records).count k).sum := hkeysperm.sum_eq
    _ = (errorTokenStream records).length :=
        List.sum_map_count_dedup_eq_length _

/-- C5 (amended): error-type ranking flattens every error-carrying record's
error-type collection, accepting either an array of strings or a single
comma-joined string; tokens split from the comma-joined form are trimmed,
array elements are counted verbatim, and empty tokens are dropped in both
forms. Each reported entry's count is the number of occurrences of its name
in that token stream, its percentage is count / total occurrences * 100, the
entries are sorted descending by count, and at most the caller-specified
top-N are returned; the records carrying the string A-comma-B and the array
containing only A rank as A: 2, B: 1. -/
theorem c5_error_type_ranking (records : List Record) (topCount : ℕ) :
    (∀ e ∈ analyzeErrorTypes records topCount,
      e.count = (errorTokenStream records).count e.name ∧
      e.percentage = (e.count : ℚ) / ((errorTokenStream records).length : ℚ) * 100) ∧
    List.Pairwise (fun a b => b.count ≤ a.count) (analyzeErrorTypes records topCount) ∧
    (analyzeErrorTypes records topCount).length ≤ topCount ∧
    (analyzeErrorTypes
      [{ hasErrors := true, errorTypes := some (.str "A, B") },
        { hasErrors := true, errorTypes := some (.arr ["A"]) }] 3).map
      (fun e => (e.name, e.count)) = [("A", 2), ("B", 1)] := by
  by_cases hrec : records = []
  · subst hrec
    refine ⟨?_, ?_, ?_, ?_⟩
    · intro e he
      simp [analyzeErrorTypes] at he
    · simp [analyzeErrorTypes]
    · simp [analyzeErrorTypes]
    · decide
  · refine ⟨?_, ?_, ?_, ?_⟩
    · intro e he
      rw [analyzeErrorTypes_eq records topCount hrec] at he
      obtain ⟨p, hp, hpe⟩ := List.mem_map.mp (List.mem_of_mem_take he)
      subst hpe
      have hpc : p.2 = (errorTokenStream records).count p.1 :=
        errorCounts_entry_count records p ((List.mem_insertionSort countGE).mp hp)
      refine ⟨hpc, ?_⟩
      rw [totalErrors_eq records]
    · rw [analyzeErrorTypes_eq records topCount hrec]
      apply List.Pairwise.sublist (List.take_sublist _ _)
      exact List.Pairwise.map _ (fun a b hab => hab)
        (List.sorted_insertionSort countGE (errorCountsOf records))
    · rw [analyzeErrorTypes_eq records topCount hrec, List.length_take]
      exact min_le_left _ _
    · decide

/-- Counterexample for C5 as stated: array elements are not trimmed, so the
array element space-A and the string A stay distinct types with one
occurrence each instead of merging into A with count 2. -/
theorem c5_error_type_ranking_counterexample :
    (analyzeErrorTypes
      [{ hasErrors := true, errorTypes := some (.arr [" A"]) },
        { hasErrors := true, errorTypes := some (.str "A") }] 3).map
      (fun e => (e.name, e.count)) = [(" A", 1), ("A", 1)] ∧
    ¬ (("A", 2) ∈ (analyzeErrorTypes
      [{ hasErrors := true, errorTypes := some (.arr [" A"]) },
        { hasErrors := true, errorTypes := some (.str "A") }] 3).map
      (fun e => (e.name, e.count))) := by
  refine ⟨by decide, by decide⟩

/-- Witness for C5 at the two example records: the entry reported for A
carries count 2, the number of occurrences of A in the flattened trimmed
token stream. -/
theorem c5_error_type_ranking_witness :
    (analyzeErrorTypes
      [{ hasErrors := true, errorTypes := some (.str "A, B") },
        { hasErrors := true, errorTypes := some (.arr ["A"]) }] 3).map
      (fun e => (e.name, e.count)) = [("A", 2), ("B", 1)] ∧
    (errorTokenStream
      [{ hasErrors := true, errorTypes := some (.str "A, B") },
        { hasErrors := true, errorTypes := some (.arr ["A"]) }]).count "A" = 2 :=
  ⟨(c5_error_type_ranking [{ hasErrors := true, errorTypes := some (.str "A, B") },
      { hasErrors := true, errorTypes := some (.arr ["A"]) }] 3).2.2.2,
    by decide⟩
